import Mathlib

/-!
Shallow embedding of the request-routing and streaming-translation core of the
gateway (chat.ts, validation.ts, services/model-service.ts, unified-server.ts,
utils, config).  Pure functions of the source are translated as Lean functions;
the streaming pipeline is translated as a pure function from an abstract
upstream scenario (call outcome plus the sequence of decoded byte chunks and
how the byte stream ends) to the ordered list of Server-Sent Events delivered
to the client.  Host primitives (JSON.parse / JSON.stringify) are abstracted as
function parameters, since they are platform code, not repository code.
-/

/-! ### Streaming pipeline (chat.ts, handleStreamingChat)

Chunk envelope fields that are constant over the life of one stream
(id, object, created, model, system_fingerprint) are omitted; only the
fields that vary between chunks (delta and finish_reason) are kept. -/

/-- Delta payload of one streamed chunk (chat.ts OpenAIStreamChunk delta). -/
structure ChunkDelta where
  role : Option String := none
  content : Option String := none
deriving DecidableEq, Repr

/-- One streamed chunk: its delta and its finish_reason. -/
structure OpenAIStreamChunk where
  delta : ChunkDelta
  finish_reason : Option String
deriving DecidableEq, Repr

/-- One Server-Sent Event delivered to the client: either a data chunk or the
literal terminal sentinel line (data: [DONE]). -/
inductive SSEEvent where
  | chunk (c : OpenAIStreamChunk)
  | doneSentinel
deriving DecidableEq, Repr

/-- The synthetic role chunk of chat.ts lines 255-267 and 383-395. -/
def assistantRoleChunk : OpenAIStreamChunk :=
  { delta := { role := some "assistant", content := none }, finish_reason := none }

/-- A content delta chunk as built at chat.ts lines 413-424, 461-472, 331-342. -/
def contentChunk (s : String) : OpenAIStreamChunk :=
  { delta := { role := none, content := some s }, finish_reason := none }

/-- The terminal chunk with empty delta and finish_reason stop
(chat.ts lines 283-294, 348-359, 430-441). -/
def finalChunk : OpenAIStreamChunk :=
  { delta := { role := none, content := none }, finish_reason := some "stop" }

/-- Events emitted by writeError (chat.ts lines 252-298): role chunk,
error content chunk, terminal chunk, then safeClose appends the sentinel. -/
def writeError (msg : String) : List SSEEvent :=
  [SSEEvent.chunk assistantRoleChunk,
   SSEEvent.chunk (contentChunk ("Error: " ++ msg)),
   SSEEvent.chunk finalChunk,
   SSEEvent.doneSentinel]

/-- One parsed upstream JSON-lines frame, keeping the two fields the
pipeline reads: message?.content and done. -/
structure OllamaFrame where
  content : Option String
  done : Bool
deriving DecidableEq, Repr

/-- Abstraction of JSON.parse on one upstream line followed by the field
reads message?.content and done; none models a parse failure (thrown and
skipped by the pipeline). -/
def ParseFn : Type := String → Option OllamaFrame

/-- JavaScript truthiness of ollamaData.message?.content: present and
a non-empty string. -/
def contentTruthy (f : OllamaFrame) : Bool :=
  match f.content with
  | some s => s ≠ ""
  | none => false

/-- Character-list splitter behind jsSplit: cut at every separator
occurrence, keeping empty pieces, so the result is never empty. -/
def splitCharAux (sep : Char) : List Char → List Char → List (List Char)
  | [], acc => [acc.reverse]
  | ch :: rest, acc =>
    if ch = sep then acc.reverse :: splitCharAux sep rest []
    else splitCharAux sep rest (ch :: acc)

/-- JavaScript String.prototype.split with a one-character separator, as
used for buffer.split of a newline (chat.ts line 404).  Written over the
character list so that it evaluates inside proofs. -/
def jsSplit (sep : Char) (s : String) : List String :=
  (splitCharAux sep s.data []).map String.mk

/-- JavaScript String.prototype.trim (chat.ts lines 408 and 456-458):
whitespace stripped from both ends, written over the character list. -/
def jsTrim (s : String) : String :=
  String.mk (((s.data.dropWhile Char.isWhitespace).reverse.dropWhile Char.isWhitespace).reverse)

/-- Result of the line loop of chat.ts lines 407-453: either the stream was
closed from inside (done frame seen: terminal chunk, sentinel, return), or
the loop fell through with the events so far and the hasContentBeenSent flag. -/
inductive LoopRes where
  | closed (evs : List SSEEvent)
  | cont (evs : List SSEEvent) (hasContent : Bool)

/-- The for-loop over complete lines (chat.ts lines 407-453): whitespace-only
lines are skipped, parse failures are skipped, a content-bearing frame emits a
content chunk and marks hasContentBeenSent, a done frame emits the terminal
chunk, closes (sentinel) and returns. -/
def procLines (parse : ParseFn) : List String → List SSEEvent → Bool → LoopRes
  | [], evs, hc => LoopRes.cont evs hc
  | l :: rest, evs, hc =>
    if jsTrim l = "" then
      procLines parse rest evs hc
    else
      match parse l with
      | none => procLines parse rest evs hc
      | some f =>
        let evs2 := if contentTruthy f then evs ++ [SSEEvent.chunk (contentChunk (f.content.getD ""))] else evs
        let hc2 := if contentTruthy f then true else hc
        if f.done then
          LoopRes.closed (evs2 ++ [SSEEvent.chunk finalChunk, SSEEvent.doneSentinel])
        else
          procLines parse rest evs2 hc2

/-- Result of the read loop of chat.ts lines 398-454: closed from inside, or
the upstream reported done with the events, the hasContentBeenSent flag and
the trailing partial-line buffer. -/
inductive ChunkRes where
  | closed (evs : List SSEEvent)
  | ended (evs : List SSEEvent) (hasContent : Bool) (buffer : String)

/-- The while loop of chat.ts lines 398-454: each decoded chunk is appended to
the buffer, the buffer is split on newlines, the last (possibly partial) piece
is carried forward, and the complete lines are processed by the line loop. -/
def procChunks (parse : ParseFn) : List String → String → List SSEEvent → Bool → ChunkRes
  | [], buf, evs, hc => ChunkRes.ended evs hc buf
  | c :: rest, buf, evs, hc =>
    let parts := jsSplit (Char.ofNat 10) (buf ++ c)
    let newBuf := parts.getLastD ""
    let lines := parts.dropLast
    match procLines parse lines evs hc with
    | LoopRes.closed evs2 => ChunkRes.closed evs2
    | LoopRes.cont evs2 hc2 => procChunks parse rest newBuf evs2 hc2

/-- How the upstream call behaves, as seen by handleStreamingChat:
the call throws, returns a non-2xx status, returns no body, or returns a
byte stream that yields some decoded chunks and then either ends normally
(read resolves done) or fails (read throws mid-stream). -/
inductive UpEnd where
  | normal
  | failed (msg : String)
deriving DecidableEq, Repr

/-- Upstream scenario for one streaming request. -/
inductive Upstream where
  | callFailure (msg : String)
  | badStatus (status : Nat)
  | noBody
  | stream (chunks : List String) (endK : UpEnd)
deriving DecidableEq, Repr

/-- Processing after the read loop when the upstream stream ended normally
(chat.ts lines 456-489): parse the trailing buffer (content chunk, done flag
without a terminal chunk), then either safeClose directly (done seen in the
trailing buffer) or run ensureMinimalResponse (placeholder content if none was
sent, terminal chunk, safeClose). -/
def afterStream (parse : ParseFn) (evs : List SSEEvent) (hc : Bool) (buf : String) : List SSEEvent :=
  let t := jsTrim buf
  let st :=
    if t = "" then (evs, hc, false)
    else
      match parse t with
      | none => (evs, hc, false)
      | some f =>
        let evs2 := if contentTruthy f then evs ++ [SSEEvent.chunk (contentChunk (f.content.getD ""))] else evs
        let hc2 := if contentTruthy f then true else hc
        (evs2, hc2, f.done)
  match st with
  | (evs2, hc2, fin) =>
    if fin then
      evs2 ++ [SSEEvent.doneSentinel]
    else
      (if hc2 then evs2 else evs2 ++ [SSEEvent.chunk (contentChunk "Response received from model.")])
        ++ [SSEEvent.chunk finalChunk, SSEEvent.doneSentinel]

/-- The whole streaming pipeline of chat.ts handleStreamingChat (lines
188-527), as the ordered list of events delivered to a client that stays
connected: call failure / bad status / missing body go through writeError;
otherwise the role chunk is emitted, the read loop runs, and a mid-stream read
exception is caught by the outer catch which calls writeError. -/
def handleStreamingChat (parse : ParseFn) : Upstream → List SSEEvent
  | Upstream.callFailure msg => writeError msg
  | Upstream.badStatus status => writeError ("Ollama request failed: " ++ toString status)
  | Upstream.noBody => writeError "No response body from Ollama"
  | Upstream.stream chunks endK =>
    match procChunks parse chunks "" [SSEEvent.chunk assistantRoleChunk] false with
    | ChunkRes.closed evs => evs
    | ChunkRes.ended evs hc buf =>
      match endK with
      | UpEnd.failed msg => evs ++ writeError msg
      | UpEnd.normal => afterStream parse evs hc buf

/-! ### Format translator (utils: convertContentToString / convertToOllamaMessages) -/

/-- One typed part of a multi-part message content array
(type plus optional text payload; other payloads are never read). -/
structure ContentPart where
  ptype : String
  text : Option String
deriving DecidableEq, Repr

/-- Message content as it may arrive: absent/null, a plain string, or an
array of parts whose entries may themselves be null/undefined. -/
inductive MsgContent where
  | absent
  | str (s : String)
  | parts (ps : List (Option ContentPart))
deriving DecidableEq, Repr

/-- JavaScript truthiness of a part's text field: present and non-empty. -/
def partTextTruthy (p : ContentPart) : Bool :=
  match p.text with
  | some s => s ≠ ""
  | none => false

/-- convertContentToString (utils, unified-server.ts lines 886-895): a string
is returned as is; an array is cleaned of falsy entries, restricted to parts
with type text and truthy text, mapped to the texts and joined by single
spaces; anything else becomes the empty string. -/
def convertContentToString : MsgContent → String
  | MsgContent.str s => s
  | MsgContent.parts ps =>
    String.intercalate " "
      (((ps.filterMap id).filter (fun p => p.ptype = "text" && partTextTruthy p)).map
        (fun p => p.text.getD ""))
  | MsgContent.absent => ""

/-- Backend-native chat message (role plus flattened content). -/
structure OllamaChatMessage where
  role : String
  content : String
deriving DecidableEq, Repr

/-- Public-surface chat message, with the fields validation and translation
read: role, tool_call_id and content (all possibly absent on the wire). -/
structure OpenAIMessage where
  role : Option String
  tool_call_id : Option String
  content : MsgContent
deriving DecidableEq, Repr

/-- convertToOllamaMessages (utils, unified-server.ts lines 897-901):
1:1 map with content flattened to a string.  A message with no role field
would be mapped with an undefined role; validation rejects that earlier, and
the claims only use validated messages, so the role is defaulted to "". -/
def convertToOllamaMessages (messages : List OpenAIMessage) : List OllamaChatMessage :=
  messages.map (fun m => { role := m.role.getD "", content := convertContentToString m.content })

/-- Spec-side flattening, written from the claim's words (claim C8): keep
only the text parts, drop the non-text parts, join the kept text parts with
single spaces.  To be compared with convertContentToString. -/
def specFlattenContent : MsgContent → String
  | MsgContent.str s => s
  | MsgContent.parts ps =>
    String.intercalate " "
      (((ps.filterMap id).filter (fun p => p.ptype = "text")).map (fun p => p.text.getD ""))
  | MsgContent.absent => ""

/-- An array entry that is a text part carrying no non-empty text: the one
kind of entry convertContentToString drops beyond what claim C8 states. -/
def emptyTextPart (op : Option ContentPart) : Bool :=
  match op with
  | some p => p.ptype = "text" && !(partTextTruthy p)
  | none => false

/-! ### Model directory (services/model-service.ts) -/

/-- One backend model record, keeping the fields the service reads: its name
(the identity key) and its modified_at stamp (kept so that the local and the
remote record of a same-named model stay distinguishable). -/
structure OllamaModel where
  name : String
  modified_at : String
deriving DecidableEq, Repr

/-- REMOTE_MODELS (config): the remote-routed model-name allowlist. -/
def REMOTE_MODELS : List String := ["gpt-oss:120b", "gpt-oss:20b"]

/-- ModelService.isRemoteModel (model-service.ts lines 114-116):
membership in the configured allowlist. -/
def isRemoteModel (modelName : String) : Bool :=
  REMOTE_MODELS.contains modelName

/-- The seen-set loop inside ModelService.deduplicateModels
(model-service.ts lines 129-134): keep the first occurrence of each name. -/
def dedupLoop : List OllamaModel → List String → List OllamaModel
  | [], _ => []
  | m :: rest, seen =>
    if seen.contains m.name then dedupLoop rest seen
    else m :: dedupLoop rest (m.name :: seen)

/-- ModelService.deduplicateModels (model-service.ts lines 121-137): the
input is split into entries whose names are not allowlisted (processed first)
and entries whose names are allowlisted, then deduplicated keeping the first
occurrence per name. -/
def deduplicateModels (models : List OllamaModel) : List OllamaModel :=
  let localModels := models.filter (fun m => !(isRemoteModel m.name))
  let remoteModels := models.filter (fun m => isRemoteModel m.name)
  dedupLoop (localModels ++ remoteModels) []

/-- ModelService.getUnifiedModels (model-service.ts lines 21-47) as a function
of the two fetched lists (a failed fetch contributes []): the remote list is
filtered to the allowlist (getRemoteModels, lines 66-79), the lists are
concatenated local-first and deduplicated. -/
def getUnifiedModels (localList remoteList : List OllamaModel) : List OllamaModel :=
  deduplicateModels (localList ++ remoteList.filter (fun m => isRemoteModel m.name))

/-- Spec-side unified listing, written from the claim's words (claim C6):
the local list followed by the allowlist-filtered remote list, deduplicated
by name keeping the first occurrence.  To be compared with getUnifiedModels. -/
def specUnifiedModels (localList remoteList : List OllamaModel) : List OllamaModel :=
  dedupLoop (localList ++ remoteList.filter (fun m => isRemoteModel m.name)) []

/-! ### Routing decision (unified-server.ts fetch handler, /api branch) -/

/-- The model-bearing field of a parsed request body (body.model). -/
structure OllamaReqBody where
  model : Option String
deriving DecidableEq, Repr

/-- extractModelFromRequest (utils): only POST/DELETE requests are read; an
unparsable body yields null; body.model OR null maps an absent or empty model
field to null. -/
def extractModelFromRequest (method : String) (body : Option OllamaReqBody) : Option String :=
  if method = "POST" ∨ method = "DELETE" then
    match body with
    | none => none
    | some b =>
      match b.model with
      | some m => if m = "" then none else some m
      | none => none
  else none

/-- extractDigestFromPath (utils): the regex match of /api/blobs/ followed by
a non-empty remainder. -/
def strStartsWith (s pre : String) : Bool :=
  s.data.take pre.data.length == pre.data

/-- extractDigestFromPath (utils): the regex match of /api/blobs/ followed by
a non-empty remainder. -/
def extractDigestFromPath (pathname : String) : Option String :=
  if strStartsWith pathname "/api/blobs/" then
    let rest := String.mk (pathname.data.drop 11)
    if rest = "" then none else some rest
  else none

/-- Outcome of the /api/* dispatch cascade: answered by the gateway itself
(tags, ps, version, invalid blob digest) or forwarded to a backend. -/
inductive ApiResult where
  | unifiedTags
  | mergedPs
  | version
  | blobInvalid
  | forwardLocal
  | forwardRemote
deriving DecidableEq, Repr

/-- The /api/* branch of the fetch handler (unified-server.ts lines 259-314),
with the parsed request body passed in: metadata endpoints are answered
locally, blobs always go local, the five model-bearing POST endpoints route on
the extracted model name via the allowlist and default to local, the model
management endpoints and everything else go local. -/
def apiDispatch (method pathname : String) (body : Option OllamaReqBody) : ApiResult :=
  if pathname = "/api/tags" ∧ method = "GET" then ApiResult.unifiedTags
  else if pathname = "/api/ps" ∧ method = "GET" then ApiResult.mergedPs
  else if pathname = "/api/version" ∧ method = "GET" then ApiResult.version
  else if strStartsWith pathname "/api/blobs/" = true ∧ (method = "HEAD" ∨ method = "POST") then
    match extractDigestFromPath pathname with
    | some _ => ApiResult.forwardLocal
    | none => ApiResult.blobInvalid
  else if method = "POST" ∧
      pathname ∈ ["/api/generate", "/api/chat", "/api/embed", "/api/embeddings", "/api/show"] then
    match extractModelFromRequest method body with
    | some m => if isRemoteModel m then ApiResult.forwardRemote else ApiResult.forwardLocal
    | none => ApiResult.forwardLocal
  else if (method = "POST" ∨ method = "DELETE") ∧
      pathname ∈ ["/api/pull", "/api/push", "/api/create", "/api/delete", "/api/copy"] then
    ApiResult.forwardLocal
  else ApiResult.forwardLocal

/-! ### Request validation and dispatch (validation.ts, chat.ts) -/

/-- The error envelope built by createErrorResponse: message, type, HTTP
status and the optional param pointer. -/
structure ErrResp where
  message : String
  etype : String
  status : Nat
  param : Option String
deriving DecidableEq, Repr

/-- The messages field of a request body as validation sees it: absent (or
any falsy value), present but not an array, or an array of messages. -/
inductive MessagesVal where
  | absent
  | notArray
  | arr (msgs : List OpenAIMessage)
deriving DecidableEq, Repr

/-- The request-body fields validateRequest reads. -/
structure ReqBody where
  model : Option String
  messages : MessagesVal
deriving DecidableEq, Repr

/-- JavaScript truthiness of an optional string field: present and non-empty. -/
def strFieldTruthy : Option String → Bool
  | some s => s ≠ ""
  | none => false

/-- JavaScript truthiness of message.content (validation.ts line 47):
a non-empty string or any array; null/undefined and the empty string are
falsy. -/
def msgContentTruthy : MsgContent → Bool
  | MsgContent.absent => false
  | MsgContent.str s => s ≠ ""
  | MsgContent.parts _ => true

/-- The 400 error for a missing/empty/non-array/empty-array messages field
(validation.ts line 14). -/
def msgsErr : ErrResp :=
  { message := "Missing required parameter: messages"
    etype := "invalid_request_error", status := 400, param := some "messages" }

/-- The per-message loop of validateRequest (validation.ts lines 17-58):
role presence, role validity, tool_call_id for tool messages, content size. -/
def validateMessages : List OpenAIMessage → Nat → Option ErrResp
  | [], _ => none
  | m :: rest, i =>
    if !(strFieldTruthy m.role) then
      some { message := "Missing required parameter: messages[" ++ toString i ++ "].role"
             etype := "invalid_request_error", status := 400
             param := some ("messages[" ++ toString i ++ "].role") }
    else if !(["system", "user", "assistant", "tool"].contains (m.role.getD "")) then
      some { message := "Invalid value for messages[" ++ toString i ++ "].role: " ++ m.role.getD ""
             etype := "invalid_request_error", status := 400
             param := some ("messages[" ++ toString i ++ "].role") }
    else if m.role.getD "" = "tool" && !(strFieldTruthy m.tool_call_id) then
      some { message := "Missing required parameter: messages[" ++ toString i ++ "].tool_call_id"
             etype := "invalid_request_error", status := 400
             param := some ("messages[" ++ toString i ++ "].tool_call_id") }
    else if msgContentTruthy m.content && decide ((convertContentToString m.content).length > 200000) then
      some { message := "Message content too large (max 200000 characters)"
             etype := "invalid_request_error", status := 400
             param := some ("messages[" ++ toString i ++ "].content") }
    else validateMessages rest (i + 1)

/-- validateRequest (validation.ts lines 8-61): model presence is checked
first, then the messages field, then each message in order. -/
def validateRequest (body : ReqBody) : Option ErrResp :=
  if !(strFieldTruthy body.model) then
    some { message := "Missing required parameter: model"
           etype := "invalid_request_error", status := 400, param := some "model" }
  else
    match body.messages with
    | MessagesVal.absent => some msgsErr
    | MessagesVal.notArray => some msgsErr
    | MessagesVal.arr [] => some msgsErr
    | MessagesVal.arr msgs => validateMessages msgs 0

/-- validateModel (validation.ts lines 5-6): membership of the requested
model name in the available-model list. -/
def validateModel (model : String) (availableModels : List String) : Bool :=
  availableModels.contains model

/-- The validation prefix of handleChatCompletions (chat.ts lines 41-58):
validateRequest, then the unified-availability check that answers 404 with
the model name embedded in the message.  none means the request proceeds to
parameter validation and dispatch. -/
def chatRequestReject (body : ReqBody) (availableModels : List String) : Option ErrResp :=
  match validateRequest body with
  | some e => some e
  | none =>
    if !(validateModel (body.model.getD "") availableModels) then
      some { message := "The model \x27" ++ body.model.getD "" ++ "\x27 does not exist"
             etype := "invalid_request_error", status := 404, param := some "model" }
    else none

/-! ### Non-streaming response shaping (chat.ts, handleNonStreamingChat) -/

/-- The assistant message of the single choice of the envelope. -/
structure ChoiceMessage where
  role : String
  content : String
deriving DecidableEq, Repr

/-- The parts of the non-streaming envelope the claims are about: the single
choice (index 0) and the usage counts. -/
structure OpenAIChatResponse where
  message : ChoiceMessage
  finish_reason : String
  prompt_tokens : Nat
  completion_tokens : Nat
  total_tokens : Nat
deriving DecidableEq, Repr

/-- The content normalization of handleNonStreamingChat (chat.ts lines
138-150): backend content OR empty string; when json_object was requested and
JSON.parse of the content throws, the content is replaced by
JSON.stringify of an object with the original text under the key response;
when the content is still empty and the request carried no tools, the fixed
placeholder is substituted.  jsonValid abstracts whether JSON.parse succeeds
and jsonWrap abstracts the JSON.stringify wrapping. -/
def normalizeContent (jsonValid : String → Bool) (jsonWrap : String → String)
    (respContent : Option String) (jsonMode hasTools : Bool) : String :=
  let content := respContent.getD ""
  let content := if jsonMode && !(jsonValid content) then jsonWrap content else content
  if content = "" && !hasTools then "Response received from model." else content

/-- The envelope built by handleNonStreamingChat (chat.ts lines 152-171):
role assistant, finish_reason stop, normalized content, token counts
defaulted to zero and summed.  respContent is ollamaResponse.message?.content
(none when absent), promptEval/evalCount the backend token counts. -/
def handleNonStreamingChat (jsonValid : String → Bool) (jsonWrap : String → String)
    (respContent : Option String) (promptEval evalCount : Option Nat)
    (jsonMode hasTools : Bool) : OpenAIChatResponse :=
  { message := { role := "assistant"
                 content := normalizeContent jsonValid jsonWrap respContent jsonMode hasTools }
    finish_reason := "stop"
    prompt_tokens := promptEval.getD 0
    completion_tokens := evalCount.getD 0
    total_tokens := promptEval.getD 0 + evalCount.getD 0 }

/-! ### Streaming toggle (chat.ts, handleChatCompletions lines 73-104) -/

/-- Which kind of response body the dispatcher produces. -/
inductive ChatMode where
  | streamingSSE
  | singleJson
deriving DecidableEq, Repr

/-- The effective streaming flag (chat.ts line 74): the request's stream
field (defaulted to false when absent) AND the OLLAMA_STREAM configuration
flag. -/
def effectiveStream (stream : Option Bool) (ollamaStream : Bool) : Bool :=
  stream.getD false && ollamaStream

/-- The streaming/non-streaming branch of handleChatCompletions
(chat.ts lines 100-104). -/
def dispatchChat (stream : Option Bool) (ollamaStream : Bool) : ChatMode :=
  if effectiveStream stream ollamaStream then ChatMode.streamingSSE else ChatMode.singleJson

/-- Whether the messages field counts as missing for validateRequest
(validation.ts line 13): absent/falsy, not an array, or an empty array. -/
def messagesMissing : MessagesVal → Bool
  | MessagesVal.absent => true
  | MessagesVal.notArray => true
  | MessagesVal.arr [] => true
  | MessagesVal.arr (_ :: _) => false

/-- A parse function under which no line yields a frame: models an upstream
whose lines all fail JSON.parse (or an upstream sending no complete line). -/
def parseNone : ParseFn := fun _ => none

/-- Recognizer for the synthetic role chunk (delta.role assistant). -/
def isRoleChunk : SSEEvent → Bool
  | SSEEvent.chunk c => c.delta.role == some "assistant"
  | SSEEvent.doneSentinel => false

/-- Number of role chunks among the delivered events. -/
def roleCount (evs : List SSEEvent) : Nat :=
  evs.countP isRoleChunk

/-- Whether a streaming scenario ends in the outer catch calling writeError
after the role chunk was already sent: the upstream byte stream fails
mid-read and the read loop had not already closed the stream. -/
def reachesCatch (parse : ParseFn) : Upstream → Bool
  | Upstream.stream chunks (UpEnd.failed _) =>
    match procChunks parse chunks "" [SSEEvent.chunk assistantRoleChunk] false with
    | ChunkRes.ended _ _ _ => true
    | ChunkRes.closed _ => false
  | _ => false

/-- Every event of the list is a content delta chunk. -/
def contentOnly (l : List SSEEvent) : Prop :=
  ∀ e ∈ l, ∃ s, e = SSEEvent.chunk (contentChunk s)

/-- Recognizer for a chunk carrying a non-null finish_reason. -/
def isFinishChunk : SSEEvent → Bool
  | SSEEvent.chunk c => c.finish_reason.isSome
  | SSEEvent.doneSentinel => false

/-- The upstream line exercising the trailing-buffer path: a done-flagged
frame with no trailing newline. -/
def doneLine : String := "\x7b\"done\":true\x7d"

/-- JSON.parse restricted to the single line in play: the done-flagged frame
parses to done true with no message content; everything else fails. -/
def parseDoneLine : ParseFn :=
  fun s => if s = doneLine then some { content := none, done := true } else none

/-! ### Theorems -/

/-- Claim C10: the effective streaming flag is the conjunction of the
request's stream field and the OLLAMA_STREAM configuration flag; when
OLLAMA_STREAM is false every request, including one sent with stream=true, is
dispatched to the non-streaming branch and gets a single JSON body rather
than an SSE stream. -/
theorem stream_toggle_conjunction :
    ∀ (stream : Option Bool) (ollamaStream : Bool),
      dispatchChat stream false = ChatMode.singleJson
      ∧ (dispatchChat stream ollamaStream = ChatMode.streamingSSE ↔
          stream = some true ∧ ollamaStream = true) := by
  decide

/-- Claim C7: isRemoteModel is membership in the configured allowlist, and a
POST to one of the five model-bearing endpoints is forwarded remote iff the
model name parsed from its body is allowlisted, defaulting to local when no
model name can be parsed. -/
theorem remote_routing_by_allowlist :
    ∀ (pathname : String) (body : Option OllamaReqBody),
      isRemoteModel "gpt-oss:120b" = true
      ∧ isRemoteModel "llama3" = false
      ∧ (∀ n, isRemoteModel n = true ↔ n ∈ REMOTE_MODELS)
      ∧ (pathname ∈ ["/api/generate", "/api/chat", "/api/embed", "/api/embeddings", "/api/show"] →
          ((apiDispatch "POST" pathname body = ApiResult.forwardRemote ↔
              ∃ m, extractModelFromRequest "POST" body = some m ∧ isRemoteModel m = true)
            ∧ (extractModelFromRequest "POST" body = none →
                apiDispatch "POST" pathname body = ApiResult.forwardLocal))) := by
  intro pathname body
  refine ⟨by decide, by decide, ?_, ?_⟩
  · intro n
    simp [isRemoteModel, List.elem_iff]
  · intro hmem
    fin_cases hmem <;>
    · constructor
      · simp only [apiDispatch]
        rw [if_neg (by decide), if_neg (by decide), if_neg (by decide),
            if_neg (by decide), if_pos (by decide)]
        cases hm : extractModelFromRequest "POST" body with
        | none => simp [hm]
        | some m =>
          by_cases hr : isRemoteModel m
          · simp [hm, hr]
          · simp [hm, hr]
      · intro hnone
        simp only [apiDispatch]
        rw [if_neg (by decide), if_neg (by decide), if_neg (by decide),
            if_neg (by decide), if_pos (by decide)]
        simp [hnone]

/-- Witness for claim C7's theorem: its routing clause instantiated at the
chat endpoint with an allowlisted model in the body, membership hypothesis
discharged. -/
theorem remote_routing_by_allowlist_witness :
    (apiDispatch "POST" "/api/chat" (some { model := some "gpt-oss:120b" }) = ApiResult.forwardRemote ↔
        ∃ m, extractModelFromRequest "POST" (some { model := some "gpt-oss:120b" }) = some m
          ∧ isRemoteModel m = true)
    ∧ (extractModelFromRequest "POST" (some { model := some "gpt-oss:120b" }) = none →
        apiDispatch "POST" "/api/chat" (some { model := some "gpt-oss:120b" }) = ApiResult.forwardLocal) :=
  (remote_routing_by_allowlist "/api/chat" (some { model := some "gpt-oss:120b" })).2.2.2
    (by decide)

/-- Counterexample to claim C4 as stated: whitespace-only backend content is
NOT replaced by the placeholder — with content a single space, no tools and no
json mode, the envelope carries the single space unchanged. -/
theorem whitespace_content_not_replaced :
    (handleNonStreamingChat (fun _ => true) (fun s => s) (some " ") none none false false).message.content
        = " "
    ∧ (handleNonStreamingChat (fun _ => true) (fun s => s) (some " ") none none false false).message.content
        ≠ "Response received from model." := by
  constructor
  · rfl
  · intro h
    simp [handleNonStreamingChat, normalizeContent] at h

/-- Claim C4 as amended: the non-streaming envelope always has role assistant
and finish_reason stop; when tools are absent the content is never empty, and
when additionally the content is the EMPTY string after JSON-format
normalization (for a plain request: the backend returned empty or absent
content) it is the fixed placeholder.  Whitespace-only content is kept as is
(see the counterexample). -/
theorem nonstreaming_envelope_normalization :
    ∀ (jsonValid : String → Bool) (jsonWrap : String → String)
      (respContent : Option String) (promptEval evalCount : Option Nat)
      (jsonMode hasTools : Bool),
      (handleNonStreamingChat jsonValid jsonWrap respContent promptEval evalCount jsonMode hasTools).message.role
          = "assistant"
      ∧ (handleNonStreamingChat jsonValid jsonWrap respContent promptEval evalCount jsonMode hasTools).finish_reason
          = "stop"
      ∧ (hasTools = false →
          (handleNonStreamingChat jsonValid jsonWrap respContent promptEval evalCount jsonMode hasTools).message.content
            ≠ "")
      ∧ (hasTools = false → jsonMode = false → respContent.getD "" = "" →
          (handleNonStreamingChat jsonValid jsonWrap respContent promptEval evalCount jsonMode hasTools).message.content
            = "Response received from model.") := by
  intro jsonValid jsonWrap respContent promptEval evalCount jsonMode hasTools
  refine ⟨rfl, rfl, ?_, ?_⟩
  · intro ht
    subst ht
    simp only [handleNonStreamingChat, normalizeContent]
    set c2 := if jsonMode && !(jsonValid (respContent.getD "")) then jsonWrap (respContent.getD "")
      else respContent.getD "" with hc2
    by_cases he : c2 = ""
    · simp [he]
    · simp [he]
  · intro ht hj he
    subst ht
    subst hj
    simp [handleNonStreamingChat, normalizeContent, he]

/-- Witness for claim C4's theorem: at a plain request with empty backend
content and no tools, the envelope is assistant/stop with the placeholder. -/
theorem nonstreaming_envelope_normalization_witness :
    (handleNonStreamingChat (fun _ => true) (fun s => s) (some "") none none false false).message.role
        = "assistant"
    ∧ (handleNonStreamingChat (fun _ => true) (fun s => s) (some "") none none false false).message.content
        ≠ ""
    ∧ (handleNonStreamingChat (fun _ => true) (fun s => s) (some "") none none false false).message.content
        = "Response received from model." := by
  have h := nonstreaming_envelope_normalization (fun _ => true) (fun s => s) (some "") none none false false
  exact ⟨h.1, h.2.2.1 rfl, h.2.2.2 rfl rfl rfl⟩

/-- Claim C5: with response_format json_object, the content placed in the
envelope always parses as JSON, and when the backend content does not parse
it is the JSON.stringify wrapping of the original text.  jsonValid abstracts
JSON.parse success; the two hypotheses are the platform facts that
JSON.stringify output reparses and that the empty string is not JSON. -/
theorem json_mode_content_always_parses :
    ∀ (jsonValid : String → Bool) (jsonWrap : String → String)
      (respContent : Option String) (promptEval evalCount : Option Nat) (hasTools : Bool),
      (∀ s, jsonValid (jsonWrap s) = true) →
      jsonValid "" = false →
      jsonValid ((handleNonStreamingChat jsonValid jsonWrap respContent promptEval evalCount true hasTools).message.content)
          = true
      ∧ (jsonValid (respContent.getD "") = false →
          (handleNonStreamingChat jsonValid jsonWrap respContent promptEval evalCount true hasTools).message.content
            = jsonWrap (respContent.getD "")) := by
  intro jsonValid jsonWrap respContent promptEval evalCount hasTools h1 h2
  simp only [handleNonStreamingChat, normalizeContent]
  by_cases hv : jsonValid (respContent.getD "") = true
  · have hne : respContent.getD "" ≠ "" := by
      intro he
      rw [he] at hv
      rw [h2] at hv
      exact Bool.false_ne_true hv
    constructor
    · simp [hv, hne]
    · intro hcontra
      rw [hv] at hcontra
      exact absurd hcontra (by simp)
  · have hv' : jsonValid (respContent.getD "") = false := by
      cases hb : jsonValid (respContent.getD "")
      · rfl
      · exact absurd hb hv
    have hwne : jsonWrap (respContent.getD "") ≠ "" := by
      intro he
      have := h1 (respContent.getD "")
      rw [he] at this
      rw [h2] at this
      exact Bool.false_ne_true this
    constructor
    · simp [hv', hwne, h1]
    · intro _
      simp [hv', hwne]

/-- Witness for claim C5's theorem: a concrete jsonValid (non-empty test) and
constant jsonWrap satisfying the platform hypotheses, at empty backend
content: the envelope carries the wrapped content, which validates. -/
theorem json_mode_content_always_parses_witness :
    (fun s => s ≠ "" : String → Bool)
        ((handleNonStreamingChat (fun s => s ≠ "") (fun _ => "wrapped") (some "") none none true false).message.content)
        = true
    ∧ ((fun s => s ≠ "" : String → Bool) "" = false →
        (handleNonStreamingChat (fun s => s ≠ "") (fun _ => "wrapped") (some "") none none true false).message.content
          = "wrapped") := by
  have h := json_mode_content_always_parses (fun s => s ≠ "") (fun _ => "wrapped")
    (some "") none none false (fun _ => rfl) (by decide)
  exact ⟨h.1, fun _ => h.2 (by decide)⟩

/-- Counterexample to claim C9 as stated: a body missing BOTH model and
messages is rejected with param model, not param messages, because
validateRequest checks model first. -/
theorem missing_messages_param_is_model :
    (validateRequest { model := none, messages := MessagesVal.absent }).map ErrResp.param
        = some (some "model")
    ∧ (validateRequest { model := none, messages := MessagesVal.absent }).map ErrResp.param
        ≠ some (some "messages") := by
  constructor
  · rfl
  · decide

/-- Claim C9 as amended: a request whose model field passes the presence
check and whose messages field is missing (absent, not an array, or empty) is
rejected with HTTP 400 and param messages; and a request that passes
validateRequest but names a model outside the unified available-model list is
rejected with HTTP 404 with the model name embedded in the message. -/
theorem validation_messages_and_unknown_model :
    ∀ (body : ReqBody) (availableModels : List String),
      (strFieldTruthy body.model = true → messagesMissing body.messages = true →
        validateRequest body = some msgsErr ∧ msgsErr.status = 400 ∧ msgsErr.param = some "messages")
      ∧ (validateRequest body = none →
          validateModel (body.model.getD "") availableModels = false →
          ∃ e, chatRequestReject body availableModels = some e
            ∧ e.status = 404
            ∧ e.message = "The model \x27" ++ body.model.getD "" ++ "\x27 does not exist") := by
  intro body availableModels
  constructor
  · intro hm hmm
    refine ⟨?_, rfl, rfl⟩
    simp only [validateRequest, hm, Bool.not_true, Bool.false_eq_true, if_false]
    cases hv : body.messages with
    | absent => rfl
    | notArray => rfl
    | arr msgs =>
      cases msgs with
      | nil => rfl
      | cons m rest =>
        rw [hv] at hmm
        exact absurd hmm (by simp [messagesMissing])
  · intro hval hmodel
    refine ⟨{ message := "The model \x27" ++ body.model.getD "" ++ "\x27 does not exist"
              etype := "invalid_request_error", status := 404, param := some "model" },
      ?_, rfl, rfl⟩
    simp [chatRequestReject, hval, hmodel]

/-- Witness for claim C9's theorem: a body with a model but an empty messages
array gets the 400 messages error; a body passing validateRequest but naming
a model outside the list gets the 404 with the name in the message. -/
theorem validation_messages_and_unknown_model_witness :
    (validateRequest { model := some "llama3", messages := MessagesVal.arr [] } = some msgsErr
      ∧ msgsErr.status = 400 ∧ msgsErr.param = some "messages")
    ∧ (∃ e, chatRequestReject
          { model := some "ghost",
            messages := MessagesVal.arr [{ role := some "user", tool_call_id := none, content := MsgContent.str "hi" }] }
          ["llama3"] = some e
        ∧ e.status = 404
        ∧ e.message = "The model \x27ghost\x27 does not exist") := by
  constructor
  · exact (validation_messages_and_unknown_model
      { model := some "llama3", messages := MessagesVal.arr [] } ["llama3"]).1 (by decide) (by decide)
  · exact (validation_messages_and_unknown_model
      { model := some "ghost",
        messages := MessagesVal.arr [{ role := some "user", tool_call_id := none, content := MsgContent.str "hi" }] }
      ["llama3"]).2 (by decide) (by decide)

/-- Helper for claim C8: the parts kept by the source conversion are exactly
the parts kept by the claim-literal conversion once the text parts carrying
no non-empty text have been removed. -/
theorem kept_parts_eq (ps : List (Option ContentPart)) :
    (((ps.filter (fun op => !(emptyTextPart op))).filterMap id).filter (fun p => p.ptype = "text"))
      = ((ps.filterMap id).filter (fun p => p.ptype = "text" && partTextTruthy p)) := by
  induction ps with
  | nil => rfl
  | cons op rest ih =>
    cases op with
    | none =>
      simp only [List.filter_cons, emptyTextPart, Bool.not_false, if_pos]
      simpa [List.filterMap_cons] using ih
    | some p =>
      by_cases ht : p.ptype = "text"
      · by_cases htt : partTextTruthy p = true
        · have he : emptyTextPart (some p) = false := by
            simp [emptyTextPart, htt]
          simp [List.filter_cons, List.filterMap_cons, he, ht, htt, ih]
        · have htt' : partTextTruthy p = false := by
            cases hb : partTextTruthy p
            · rfl
            · exact absurd hb htt
          have he : emptyTextPart (some p) = true := by
            simp [emptyTextPart, ht, htt']
          simp [List.filter_cons, List.filterMap_cons, he, ht, htt', ih]
      · have he : emptyTextPart (some p) = false := by
          simp [emptyTextPart, ht]
        simp [List.filter_cons, List.filterMap_cons, he, ht, ih]

/-- Counterexample to claim C8 as stated: a text part whose text is the empty
string is a text part, yet the source conversion drops it while the
claim-literal conversion keeps it, so joining differs. -/
theorem empty_text_part_dropped :
    convertContentToString
        (MsgContent.parts [some { ptype := "text", text := some "" }, some { ptype := "text", text := some "b" }])
      = "b"
    ∧ specFlattenContent
        (MsgContent.parts [some { ptype := "text", text := some "" }, some { ptype := "text", text := some "b" }])
      = " b"
    ∧ convertContentToString
        (MsgContent.parts [some { ptype := "text", text := some "" }, some { ptype := "text", text := some "b" }])
      ≠ specFlattenContent
        (MsgContent.parts [some { ptype := "text", text := some "" }, some { ptype := "text", text := some "b" }]) := by
  refine ⟨rfl, rfl, ?_⟩
  decide

/-- Claim C8 as amended: a plain string converts to itself; the worked
example converts to the claimed single-space join with the image part
dropped; and in general the source conversion agrees with the claim-literal
conversion after the text parts carrying empty or missing text are dropped
along with the non-text parts. -/
theorem content_flattening :
    ∀ (ps : List (Option ContentPart)) (s : String),
      convertContentToString (MsgContent.str s) = s
      ∧ convertContentToString
          (MsgContent.parts
            [some { ptype := "text", text := some "a" },
             some { ptype := "image_url", text := none },
             some { ptype := "text", text := some "b" }])
          = "a b"
      ∧ convertContentToString (MsgContent.parts ps)
          = specFlattenContent (MsgContent.parts (ps.filter (fun op => !(emptyTextPart op)))) := by
  intro ps s
  refine ⟨rfl, by decide, ?_⟩
  simp only [convertContentToString, specFlattenContent]
  rw [kept_parts_eq]

/-- Helper: find? on a cons, in if form. -/
theorem find?_cons_eq {α : Type} (p : α → Bool) (a : α) (l : List α) :
    (a :: l).find? p = if p a then some a else l.find? p := by
  cases hp : p a
  · simp [List.find?_cons, hp]
  · simp [List.find?_cons, hp]

/-- Helper: find? distributes over append when the first part has no hit. -/
theorem find?_append_none {α : Type} (p : α → Bool) (l₁ l₂ : List α)
    (h : l₁.find? p = none) : (l₁ ++ l₂).find? p = l₂.find? p := by
  induction l₁ with
  | nil => rfl
  | cons a rest ih =>
    rw [find?_cons_eq] at h
    simp only [List.cons_append]
    rw [find?_cons_eq]
    cases hp : p a
    · simp only [hp, Bool.false_eq_true, if_false] at h ⊢
      exact ih h
    · simp [hp] at h
  
/-- Helper: find? ignores a middle element the predicate rejects. -/
theorem find?_middle_neg {α : Type} (p : α → Bool) (x : α) (l₁ l₂ : List α)
    (hx : p x = false) : (l₁ ++ x :: l₂).find? p = (l₁ ++ l₂).find? p := by
  induction l₁ with
  | nil =>
    simp only [List.nil_append]
    rw [find?_cons_eq, hx]
    simp
  | cons a rest ih =>
    simp only [List.cons_append]
    rw [find?_cons_eq, find?_cons_eq]
    cases hp : p a
    · simpa [hp] using ih
    · simp [hp]

/-- Helper for claim C6: membership in the seen-set dedup loop is exactly
being the first entry carrying one's name among the unseen names. -/
theorem dedupLoop_mem (L : List OllamaModel) :
    ∀ (seen : List String) (m : OllamaModel),
      m ∈ dedupLoop L seen ↔
        (seen.contains m.name = false ∧ L.find? (fun x => x.name == m.name) = some m) := by
  induction L with
  | nil =>
    intro seen m
    simp [dedupLoop]
  | cons x rest ih =>
    intro seen m
    rw [find?_cons_eq]
    by_cases hseen : seen.contains x.name = true
    · simp only [dedupLoop, hseen, if_true]
      by_cases hx : x.name = m.name
      · rw [if_pos (by simp [hx])]
        constructor
        · intro hmem
          have hm := (ih seen m).mp hmem
          rw [← hx, hseen] at hm
          exact absurd hm.1 (by simp)
        · intro hc
          have hxm : x = m := by simpa using hc.2
          have := hc.1
          rw [← hx, hseen] at this
          exact absurd this (by simp)
      · rw [if_neg (by simp [hx])]
        exact ih seen m
    · have hseen' : seen.contains x.name = false := Bool.eq_false_iff.mpr hseen
      simp only [dedupLoop, hseen', Bool.false_eq_true, if_false]
      by_cases hx : x.name = m.name
      · rw [if_pos (by simp [hx])]
        constructor
        · intro hmem
          rcases List.mem_cons.mp hmem with hxm | hmem'
          · subst hxm
            rw [← hx]
            exact ⟨hseen', rfl⟩
          · have hm := (ih (x.name :: seen) m).mp hmem'
            have hcontains := hm.1
            rw [List.contains_cons] at hcontains
            have htrue : (m.name == x.name) = true := by
              simp [hx]
            rw [htrue] at hcontains
            simp at hcontains
        · intro hc
          have hxm : x = m := by simpa using hc.2
          exact List.mem_cons.mpr (Or.inl hxm.symm)
      · rw [if_neg (by simp [hx])]
        constructor
        · intro hmem
          rcases List.mem_cons.mp hmem with hxm | hmem'
          · exact absurd (congrArg OllamaModel.name hxm.symm) hx
          · have hm := (ih (x.name :: seen) m).mp hmem'
            refine ⟨?_, hm.2⟩
            have hcontains := hm.1
            rw [List.contains_cons] at hcontains
            cases hb2 : seen.contains m.name
            · rfl
            · rw [hb2] at hcontains
              simp at hcontains
        · intro hc
          refine List.mem_cons.mpr (Or.inr ?_)
          refine (ih (x.name :: seen) m).mpr ⟨?_, hc.2⟩
          rw [List.contains_cons]
          have h1 : (m.name == x.name) = false := by
            simp only [beq_eq_false_iff_ne, ne_eq]
            intro h
            exact hx h.symm
          rw [h1, hc.1]
          rfl

/-- Helper for claim C6: splitting a model list into non-allowlisted-name
entries followed by allowlisted-name entries does not change which entry is
found first for any given name, because all entries sharing a name land on
the same side. -/
theorem find?_name_partition (C : List OllamaModel) (n : String) :
    ((C.filter (fun x => !(isRemoteModel x.name))) ++ (C.filter (fun x => isRemoteModel x.name))).find?
        (fun x => x.name == n)
      = C.find? (fun x => x.name == n) := by
  induction C with
  | nil => rfl
  | cons x rest ih =>
    rw [find?_cons_eq]
    by_cases hr : isRemoteModel x.name = true
    · have hfa : List.filter (fun x => !(isRemoteModel x.name)) (x :: rest)
          = List.filter (fun x => !(isRemoteModel x.name)) rest := by
        simp [List.filter_cons, hr]
      have hfb : List.filter (fun x => isRemoteModel x.name) (x :: rest)
          = x :: List.filter (fun x => isRemoteModel x.name) rest := by
        simp [List.filter_cons, hr]
      rw [hfa, hfb]
      by_cases hx : x.name = n
      · rw [if_pos (by simp [hx])]
        have hnone : (List.filter (fun x => !(isRemoteModel x.name)) rest).find?
            (fun x => x.name == n) = none := by
          rw [List.find?_eq_none]
          intro y hy hp
          have hy' := List.of_mem_filter hy
          rw [beq_iff_eq] at hp
          rw [hp, ← hx, hr] at hy'
          simp at hy'
        rw [find?_append_none _ _ _ hnone, find?_cons_eq, if_pos (by simp [hx])]
      · rw [if_neg (by simp [hx])]
        rw [find?_middle_neg _ _ _ _ (by simp [hx])]
        exact ih
    · have hr' : isRemoteModel x.name = false := Bool.eq_false_iff.mpr hr
      have hfa : List.filter (fun x => !(isRemoteModel x.name)) (x :: rest)
          = x :: List.filter (fun x => !(isRemoteModel x.name)) rest := by
        simp [List.filter_cons, hr']
      have hfb : List.filter (fun x => isRemoteModel x.name) (x :: rest)
          = List.filter (fun x => isRemoteModel x.name) rest := by
        simp [List.filter_cons, hr']
      rw [hfa, hfb]
      simp only [List.cons_append]
      rw [find?_cons_eq]
      by_cases hx : x.name = n
      · rw [if_pos (by simp [hx]), if_pos (by simp [hx])]
      · rw [if_neg (by simp [hx]), if_neg (by simp [hx])]
        exact ih

/-- Counterexample to claim C6 as stated: with a local list holding an
allowlisted name before a non-allowlisted one, the code reorders the entries
(non-allowlisted names first), so the returned list is not the
first-occurrence dedup of the local-first concatenation. -/
theorem unified_models_reordered :
    getUnifiedModels
        [{ name := "gpt-oss:120b", modified_at := "local-a" },
         { name := "llama3", modified_at := "local-b" }] []
      = [{ name := "llama3", modified_at := "local-b" },
         { name := "gpt-oss:120b", modified_at := "local-a" }]
    ∧ specUnifiedModels
        [{ name := "gpt-oss:120b", modified_at := "local-a" },
         { name := "llama3", modified_at := "local-b" }] []
      = [{ name := "gpt-oss:120b", modified_at := "local-a" },
         { name := "llama3", modified_at := "local-b" }]
    ∧ getUnifiedModels
        [{ name := "gpt-oss:120b", modified_at := "local-a" },
         { name := "llama3", modified_at := "local-b" }] []
      ≠ specUnifiedModels
        [{ name := "gpt-oss:120b", modified_at := "local-a" },
         { name := "llama3", modified_at := "local-b" }] [] := by
  refine ⟨?_, ?_, ?_⟩ <;> decide

/-- Claim C6 as amended: getUnifiedModels keeps, for each name, exactly the
first entry of the local-first concatenation of the local list and the
allowlist-filtered remote list (so a name present in both sources resolves to
the local entry), though entries with non-allowlisted names are reordered
ahead of allowlisted ones; the claim's two worked examples hold as stated. -/
theorem unified_models_dedup :
    ∀ (localList remoteList : List OllamaModel) (m : OllamaModel),
      (m ∈ getUnifiedModels localList remoteList ↔
        (localList ++ remoteList.filter (fun r => isRemoteModel r.name)).find?
            (fun x => x.name == m.name) = some m)
      ∧ getUnifiedModels [{ name := "dup", modified_at := "local-t" }]
          [{ name := "dup", modified_at := "remote-t" }]
        = [{ name := "dup", modified_at := "local-t" }]
      ∧ getUnifiedModels [{ name := "llama3", modified_at := "local-t" }]
          [{ name := "gpt-oss:120b", modified_at := "remote-t" }]
        = [{ name := "llama3", modified_at := "local-t" },
           { name := "gpt-oss:120b", modified_at := "remote-t" }] := by
  intro localList remoteList m
  refine ⟨?_, by decide, by decide⟩
  unfold getUnifiedModels deduplicateModels
  rw [dedupLoop_mem]
  rw [find?_name_partition]
  simp

/-- Helper for claim C2: when parsing never yields content or a done flag,
the line loop leaves the state untouched. -/
theorem procLines_benign (parse : ParseFn)
    (hparse : ∀ s f, parse s = some f → contentTruthy f = false ∧ f.done = false) :
    ∀ (lines : List String) (evs : List SSEEvent) (hc : Bool),
      procLines parse lines evs hc = LoopRes.cont evs hc := by
  intro lines
  induction lines with
  | nil => intro evs hc; rfl
  | cons l rest ih =>
    intro evs hc
    simp only [procLines]
    by_cases ht : jsTrim l = ""
    · simp [ht, ih]
    · rw [if_neg ht]
      cases hp : parse l with
      | none => exact ih evs hc
      | some f =>
        obtain ⟨hcf, hdf⟩ := hparse l f hp
        simp [hcf, hdf, ih]

/-- Helper for claim C2: when parsing never yields content or a done flag,
the read loop reaches the end of the upstream with the state untouched. -/
theorem procChunks_benign (parse : ParseFn)
    (hparse : ∀ s f, parse s = some f → contentTruthy f = false ∧ f.done = false) :
    ∀ (chunks : List String) (buf : String) (evs : List SSEEvent) (hc : Bool),
      ∃ b, procChunks parse chunks buf evs hc = ChunkRes.ended evs hc b := by
  intro chunks
  induction chunks with
  | nil => intro buf evs hc; exact ⟨buf, rfl⟩
  | cons c rest ih =>
    intro buf evs hc
    simp only [procChunks, procLines_benign parse hparse]
    exact ih _ evs hc

/-- Claim C2: when the upstream byte stream closes without ever producing a
content-bearing frame or a completion flag, the client receives the role
chunk, one placeholder content chunk, the terminal finish chunk and the
sentinel, in that order. -/
theorem streaming_zero_content_placeholder :
    ∀ (parse : ParseFn) (chunks : List String),
      (∀ s f, parse s = some f → contentTruthy f = false ∧ f.done = false) →
      handleStreamingChat parse (Upstream.stream chunks UpEnd.normal)
        = [SSEEvent.chunk assistantRoleChunk,
           SSEEvent.chunk (contentChunk "Response received from model."),
           SSEEvent.chunk finalChunk, SSEEvent.doneSentinel] := by
  intro parse chunks hparse
  obtain ⟨b, hb⟩ := procChunks_benign parse hparse chunks "" [SSEEvent.chunk assistantRoleChunk] false
  simp only [handleStreamingChat]
  rw [hb]
  simp only [afterStream]
  by_cases ht : jsTrim b = ""
  · simp [ht]
  · cases hp : parse (jsTrim b) with
    | none => simp [ht, hp]
    | some f =>
      obtain ⟨hcf, hdf⟩ := hparse _ f hp
      simp [ht, hp, hcf, hdf]

/-- Witness for claim C2's theorem: an upstream that sends one undecodable
chunk and closes; the client still gets the placeholder content chunk before
the terminal chunk and sentinel. -/
theorem streaming_zero_content_placeholder_witness :
    handleStreamingChat parseNone (Upstream.stream ["garbage"] UpEnd.normal)
      = [SSEEvent.chunk assistantRoleChunk,
         SSEEvent.chunk (contentChunk "Response received from model."),
         SSEEvent.chunk finalChunk, SSEEvent.doneSentinel] :=
  streaming_zero_content_placeholder parseNone ["garbage"]
    (fun _ _ h => Option.noConfusion h)

/-- Helper: a content chunk is not a role chunk. -/
theorem isRoleChunk_contentChunk (s : String) :
    isRoleChunk (SSEEvent.chunk (contentChunk s)) = false := rfl

/-- Helper: content-only event lists carry no role chunk. -/
theorem contentOnly_roleCount (l : List SSEEvent) (h : contentOnly l) :
    roleCount l = 0 := by
  rw [roleCount, List.countP_eq_zero]
  intro e he
  obtain ⟨s, hs⟩ := h e he
  rw [hs, isRoleChunk_contentChunk]
  simp

/-- Helper: roleCount is additive on append. -/
theorem roleCount_append (l₁ l₂ : List SSEEvent) :
    roleCount (l₁ ++ l₂) = roleCount l₁ + roleCount l₂ := by
  simp [roleCount, List.countP_append]

/-- Helper for claim C3: the line loop only ever appends content chunks,
plus the terminal chunk and sentinel when it closes the stream. -/
theorem procLines_shape (parse : ParseFn) :
    ∀ (lines : List String) (evs : List SSEEvent) (hc : Bool),
      (∃ d hc2, contentOnly d ∧ procLines parse lines evs hc = LoopRes.cont (evs ++ d) hc2)
      ∨ (∃ d, contentOnly d ∧
          procLines parse lines evs hc
            = LoopRes.closed (evs ++ d ++ [SSEEvent.chunk finalChunk, SSEEvent.doneSentinel])) := by
  intro lines
  induction lines with
  | nil =>
    intro evs hc
    exact Or.inl ⟨[], hc, fun e he => absurd he (List.not_mem_nil e), by simp [procLines]⟩
  | cons l rest ih =>
    intro evs hc
    by_cases ht : jsTrim l = ""
    · have hstep : procLines parse (l :: rest) evs hc = procLines parse rest evs hc := by
        simp [procLines, ht]
      rw [hstep]
      exact ih evs hc
    · cases hp : parse l with
      | none =>
        have hstep : procLines parse (l :: rest) evs hc = procLines parse rest evs hc := by
          simp [procLines, ht, hp]
        rw [hstep]
        exact ih evs hc
      | some f =>
        cases hcf : contentTruthy f with
        | false =>
          cases hdf : f.done with
          | false =>
            have hstep : procLines parse (l :: rest) evs hc = procLines parse rest evs hc := by
              simp [procLines, ht, hp, hcf, hdf]
            rw [hstep]
            exact ih evs hc
          | true =>
            have hstep : procLines parse (l :: rest) evs hc
                = LoopRes.closed (evs ++ [SSEEvent.chunk finalChunk, SSEEvent.doneSentinel]) := by
              simp [procLines, ht, hp, hcf, hdf]
            refine Or.inr ⟨[], fun e he => absurd he (List.not_mem_nil e), ?_⟩
            rw [hstep]
            simp
        | true =>
          cases hdf : f.done with
          | false =>
            have hstep : procLines parse (l :: rest) evs hc
                = procLines parse rest (evs ++ [SSEEvent.chunk (contentChunk (f.content.getD ""))]) true := by
              simp [procLines, ht, hp, hcf, hdf]
            rw [hstep]
            rcases ih (evs ++ [SSEEvent.chunk (contentChunk (f.content.getD ""))]) true with
              ⟨d, hc2, hd, heq⟩ | ⟨d, hd, heq⟩
            · refine Or.inl ⟨SSEEvent.chunk (contentChunk (f.content.getD "")) :: d, hc2, ?_, ?_⟩
              · intro e he
                rcases List.mem_cons.mp he with h1 | h2
                · exact ⟨f.content.getD "", h1⟩
                · exact hd e h2
              · rw [heq]
                simp
            · refine Or.inr ⟨SSEEvent.chunk (contentChunk (f.content.getD "")) :: d, ?_, ?_⟩
              · intro e he
                rcases List.mem_cons.mp he with h1 | h2
                · exact ⟨f.content.getD "", h1⟩
                · exact hd e h2
              · rw [heq]
                simp
          | true =>
            have hstep : procLines parse (l :: rest) evs hc
                = LoopRes.closed ((evs ++ [SSEEvent.chunk (contentChunk (f.content.getD ""))])
                    ++ [SSEEvent.chunk finalChunk, SSEEvent.doneSentinel]) := by
              simp [procLines, ht, hp, hcf, hdf]
            refine Or.inr ⟨[SSEEvent.chunk (contentChunk (f.content.getD ""))], ?_, ?_⟩
            · intro e he
              rcases List.mem_cons.mp he with h1 | h2
              · exact ⟨f.content.getD "", h1⟩
              · exact absurd h2 (List.not_mem_nil e)
            · exact hstep

/-- Helper for claim C3: the read loop only ever appends content chunks,
plus the terminal chunk and sentinel when it closes the stream. -/
theorem procChunks_shape (parse : ParseFn) :
    ∀ (chunks : List String) (buf : String) (evs : List SSEEvent) (hc : Bool),
      (∃ d hc2 b, contentOnly d ∧ procChunks parse chunks buf evs hc = ChunkRes.ended (evs ++ d) hc2 b)
      ∨ (∃ d, contentOnly d ∧
          procChunks parse chunks buf evs hc
            = ChunkRes.closed (evs ++ d ++ [SSEEvent.chunk finalChunk, SSEEvent.doneSentinel])) := by
  intro chunks
  induction chunks with
  | nil =>
    intro buf evs hc
    exact Or.inl ⟨[], hc, buf, fun e he => absurd he (List.not_mem_nil e), by simp [procChunks]⟩
  | cons c rest ih =>
    intro buf evs hc
    rcases procLines_shape parse ((jsSplit (Char.ofNat 10) (buf ++ c)).dropLast) evs hc with
      ⟨d, hc2, hd, heq⟩ | ⟨d, hd, heq⟩
    · have hstep : procChunks parse (c :: rest) buf evs hc
          = procChunks parse rest ((jsSplit (Char.ofNat 10) (buf ++ c)).getLastD "") (evs ++ d) hc2 := by
        simp [procChunks, heq]
      rw [hstep]
      rcases ih ((jsSplit (Char.ofNat 10) (buf ++ c)).getLastD "") (evs ++ d) hc2 with
        ⟨d2, hc3, b, hd2, heq2⟩ | ⟨d2, hd2, heq2⟩
      · refine Or.inl ⟨d ++ d2, hc3, b, ?_, ?_⟩
        · intro e he
          rcases List.mem_append.mp he with h1 | h2
          · exact hd e h1
          · exact hd2 e h2
        · rw [heq2]
          simp
      · refine Or.inr ⟨d ++ d2, ?_, ?_⟩
        · intro e he
          rcases List.mem_append.mp he with h1 | h2
          · exact hd e h1
          · exact hd2 e h2
        · rw [heq2]
          simp
    · have hstep : procChunks parse (c :: rest) buf evs hc
          = ChunkRes.closed (evs ++ d ++ [SSEEvent.chunk finalChunk, SSEEvent.doneSentinel]) := by
        simp [procChunks, heq]
      exact Or.inr ⟨d, hd, hstep⟩

/-- Helper for claim C3: the processing after a normally-ended upstream only
appends events after the ones already emitted, none of them a role chunk,
and appends at least one. -/
theorem afterStream_shape (parse : ParseFn) (evs : List SSEEvent) (hc : Bool) (buf : String) :
    ∃ t, afterStream parse evs hc buf = evs ++ t ∧ roleCount t = 0 ∧ t ≠ [] := by
  simp only [afterStream]
  by_cases ht : jsTrim buf = ""
  · cases hc with
    | false =>
      refine ⟨[SSEEvent.chunk (contentChunk "Response received from model."),
        SSEEvent.chunk finalChunk, SSEEvent.doneSentinel], ?_, by decide, by simp⟩
      simp [ht]
    | true =>
      refine ⟨[SSEEvent.chunk finalChunk, SSEEvent.doneSentinel], ?_, by decide, by simp⟩
      simp [ht]
  · cases hp : parse (jsTrim buf) with
    | none =>
      cases hc with
      | false =>
        refine ⟨[SSEEvent.chunk (contentChunk "Response received from model."),
          SSEEvent.chunk finalChunk, SSEEvent.doneSentinel], ?_, by decide, by simp⟩
        simp [ht, hp]
      | true =>
        refine ⟨[SSEEvent.chunk finalChunk, SSEEvent.doneSentinel], ?_, by decide, by simp⟩
        simp [ht, hp]
    | some f =>
      cases hcf : contentTruthy f with
      | true =>
        cases hdf : f.done with
        | true =>
          refine ⟨[SSEEvent.chunk (contentChunk (f.content.getD "")), SSEEvent.doneSentinel],
            ?_, by simp [roleCount, isRoleChunk, contentChunk], by simp⟩
          simp [ht, hp, hcf, hdf]
        | false =>
          refine ⟨[SSEEvent.chunk (contentChunk (f.content.getD "")),
            SSEEvent.chunk finalChunk, SSEEvent.doneSentinel],
            ?_, by simp [roleCount, isRoleChunk, contentChunk, finalChunk], by simp⟩
          simp [ht, hp, hcf, hdf]
      | false =>
        cases hdf : f.done with
        | true =>
          refine ⟨[SSEEvent.doneSentinel], ?_, by decide, by simp⟩
          simp [ht, hp, hcf, hdf]
        | false =>
          cases hc with
          | false =>
            refine ⟨[SSEEvent.chunk (contentChunk "Response received from model."),
              SSEEvent.chunk finalChunk, SSEEvent.doneSentinel], ?_, by decide, by simp⟩
            simp [ht, hp, hcf, hdf]
          | true =>
            refine ⟨[SSEEvent.chunk finalChunk, SSEEvent.doneSentinel], ?_, by decide, by simp⟩
            simp [ht, hp, hcf, hdf]

/-- Helper: the role count of the writeError event block is one. -/
theorem roleCount_writeError (msg : String) : roleCount (writeError msg) = 1 := by
  simp [roleCount, writeError, List.countP_cons, isRoleChunk, contentChunk,
    assistantRoleChunk, finalChunk]

/-- Claim C3 as amended: on every streaming scenario the first delivered
event is the synthetic assistant role chunk (hence before any content); it
is emitted exactly once, EXCEPT when the upstream byte stream fails mid-read
after the pipeline already opened, in which case writeError unconditionally
emits a second role chunk (the source has no sent-already guard). -/
theorem role_chunk_first :
    ∀ (parse : ParseFn) (up : Upstream),
      (handleStreamingChat parse up).head? = some (SSEEvent.chunk assistantRoleChunk)
      ∧ roleCount (handleStreamingChat parse up)
          = (if reachesCatch parse up = true then 2 else 1) := by
  intro parse up
  cases up with
  | callFailure msg =>
    refine ⟨rfl, ?_⟩
    simp [handleStreamingChat, reachesCatch, roleCount_writeError]
  | badStatus status =>
    refine ⟨rfl, ?_⟩
    simp [handleStreamingChat, reachesCatch, roleCount_writeError]
  | noBody =>
    refine ⟨rfl, ?_⟩
    simp [handleStreamingChat, reachesCatch, roleCount_writeError]
  | stream chunks endK =>
    rcases procChunks_shape parse chunks "" [SSEEvent.chunk assistantRoleChunk] false with
      ⟨d, hc2, b, hd, heq⟩ | ⟨d, hd, heq⟩
    · cases endK with
      | normal =>
        obtain ⟨t, hT, hT0, _⟩ := afterStream_shape parse
          ([SSEEvent.chunk assistantRoleChunk] ++ d) hc2 b
        have hev : handleStreamingChat parse (Upstream.stream chunks UpEnd.normal)
            = ([SSEEvent.chunk assistantRoleChunk] ++ d) ++ t := by
          simp only [handleStreamingChat, heq]
          exact hT
        rw [hev]
        constructor
        · simp
        · have hrc : reachesCatch parse (Upstream.stream chunks UpEnd.normal) = false := rfl
          rw [hrc]
          simp only [Bool.false_eq_true, if_false]
          rw [roleCount_append, roleCount_append, contentOnly_roleCount d hd, hT0]
          decide
      | failed msg =>
        have hev : handleStreamingChat parse (Upstream.stream chunks (UpEnd.failed msg))
            = ([SSEEvent.chunk assistantRoleChunk] ++ d) ++ writeError msg := by
          simp only [handleStreamingChat, heq]
        rw [hev]
        constructor
        · simp
        · have hrc : reachesCatch parse (Upstream.stream chunks (UpEnd.failed msg)) = true := by
            simp only [reachesCatch, heq]
          rw [hrc]
          simp only [if_true]
          rw [roleCount_append, roleCount_append, contentOnly_roleCount d hd,
            roleCount_writeError]
          decide
    · have hev : handleStreamingChat parse (Upstream.stream chunks endK)
          = ([SSEEvent.chunk assistantRoleChunk] ++ d)
              ++ [SSEEvent.chunk finalChunk, SSEEvent.doneSentinel] := by
        simp only [handleStreamingChat, heq]
      rw [hev]
      constructor
      · simp
      · have hrc : reachesCatch parse (Upstream.stream chunks endK) = false := by
          cases endK with
          | normal => rfl
          | failed msg => simp only [reachesCatch, heq]
        rw [hrc]
        simp only [Bool.false_eq_true, if_false]
        rw [roleCount_append, roleCount_append, contentOnly_roleCount d hd]
        decide

/-- Counterexample to claim C3 as stated: a mid-stream upstream failure after
the pipeline opened makes writeError emit the role chunk a second time, so
the stream carries two role chunks, not exactly one. -/
theorem role_chunk_duplicated_on_midstream_error :
    handleStreamingChat parseNone (Upstream.stream [] (UpEnd.failed "network reset"))
      = [SSEEvent.chunk assistantRoleChunk,
         SSEEvent.chunk assistantRoleChunk,
         SSEEvent.chunk (contentChunk "Error: network reset"),
         SSEEvent.chunk finalChunk, SSEEvent.doneSentinel]
    ∧ roleCount (handleStreamingChat parseNone (Upstream.stream [] (UpEnd.failed "network reset"))) = 2 := by
  constructor
  · decide
  · decide

/-- Claim C1 evaluated at the failing input (code bug): when the upstream
closes with the done-flagged frame sitting in the trailing partial-line
buffer (no final newline), the pipeline marks the stream finished without
emitting any finish_reason chunk, so the client receives the role chunk and
then the sentinel with NO terminal chunk in between — violating the wire
contract the spec states (and the repository's own requirements document:
finish_reason at the end, followed by the sentinel). -/
theorem trailing_done_frame_drops_finish_chunk :
    handleStreamingChat parseDoneLine (Upstream.stream [doneLine] UpEnd.normal)
      = [SSEEvent.chunk assistantRoleChunk, SSEEvent.doneSentinel]
    ∧ (handleStreamingChat parseDoneLine (Upstream.stream [doneLine] UpEnd.normal)).countP isFinishChunk
        = 0
    ∧ (handleStreamingChat parseDoneLine (Upstream.stream [doneLine] UpEnd.normal)).getLast?
        = some SSEEvent.doneSentinel := by
  refine ⟨?_, ?_, ?_⟩ <;> decide
